import Mathlib

/-!
Verification development for the krome event/channel/tunnel messaging layer.

The definitions below are a shallow embedding of the JavaScript sources:
  * lib/event.js    -- the one-shot event bus (on / once / off / emit and the
                       chrome.runtime.onMessage dispatcher)
  * lib/channel.js  -- the persistent Channel over a long-lived port, the
                       handler registry and the chrome.runtime.onConnect hook
  * lib/tunnel.js   -- the three-party tunnel broker (create) and Tunnel.emit

JavaScript values are modelled by the inductive JSVal (the scalar values the
library manipulates, plus single-level promises and the nested
Object-with-event-and-payload record used by tunnel envelopes).  JS functions
are defunctionalized: a user listener is a natural-number index into a pure
environment of type Fns, and the closures produced by once are explicit
Listener constructors.  JS Map and Set are modelled by association lists with
JS insertion-order semantics (set replaces in place, add appends when absent).
-/

namespace Krome

/-- Model of the JavaScript values handled by the library: undefined,
booleans, numbers (as integers; the library never relies on fractional or NaN
arithmetic), strings, an already-resolved promise carrying its value, and the
record with fields event and payload used as the nested tunnel envelope.
JS null is deliberately not modelled: a listener returning null would make
the dispatch loop's property access response.constructor throw, which is a
listener-error path the specification leaves to the implementer; every value
covered here has a safe constructor access.  Likewise a promise carries the
value it eventually resolves with: a rejecting listener future is the other
listener-error path the specification leaves to the implementer, so the
model covers the resolving ones. -/
inductive JSVal where
  | undefined
  | bool (b : Bool)
  | num (n : Int)
  | str (s : String)
  | promise (v : JSVal)
  | envl (event : String) (payload : JSVal)
deriving DecidableEq, Repr

/-- JavaScript truthiness of a JSVal. -/
def truthy : JSVal → Bool
  | .undefined => false
  | .bool b => b
  | .num n => !(n == 0)
  | .str s => !(s == "")
  | .promise _ => true
  | .envl _ _ => true

/-- JavaScript ToString coercion as used by template literals, restricted to
the constructors of JSVal (objects stringify as in the host). -/
def jsToString : JSVal → String
  | .undefined => "undefined"
  | .bool b => cond b "true" "false"
  | .num n => toString n
  | .str s => s
  | .promise _ => "[object Promise]"
  | .envl _ _ => "[object Object]"

/-- Field access payload.event de-structured from a JSVal; on a primitive
the field is undefined, which the library treats like an empty event name
(both fail the emit guard; the library itself only relays record payloads
built by Tunnel emit here). -/
def evOf : JSVal → String
  | .envl e _ => e
  | _ => ""

/-- Field access payload.payload de-structured from a JSVal. -/
def plOf : JSVal → JSVal
  | .envl _ p => p
  | _ => .undefined

/-- The wire unit: the one-shot message and port message shape. -/
structure Message where
  event : String
  payload : JSVal
deriving DecidableEq, Repr

/-! ### Association lists with JS Map semantics -/

/-- JS Map.get (none models undefined). -/
def alookup {κ α : Type} [DecidableEq κ] : List (κ × α) → κ → Option α
  | [], _ => none
  | (k, v) :: rest, key => if k = key then some v else alookup rest key

/-- JS Map.set: replace in place when the key exists, append otherwise. -/
def aset {κ α : Type} [DecidableEq κ] : List (κ × α) → κ → α → List (κ × α)
  | [], key, val => [(key, val)]
  | (k, v) :: rest, key, val =>
      if k = key then (key, val) :: rest else (k, v) :: aset rest key val

/-- JS Map.delete: remove the entry for the key when present. -/
def adel {κ α : Type} [DecidableEq κ] : List (κ × α) → κ → List (κ × α)
  | [], _ => []
  | (k, v) :: rest, key => if k = key then rest else (k, v) :: adel rest key

/-- JS Set.add over a list kept duplicate-free by construction: append when
the element is absent, keep the original position otherwise. -/
def sadd {α : Type} [DecidableEq α] (s : List α) (x : α) : List α :=
  if x ∈ s then s else s ++ [x]

/-! ### String helpers used by the inbound dispatcher -/

/-- JS String.prototype.startsWith, on the character lists of the strings. -/
def strStartsWith (s pre : String) : Bool :=
  pre.data.isPrefixOf s.data

/-- JS String.prototype.replace with a string pattern: replace the first
occurrence of the pattern only (worker on character lists). -/
def replaceFirstAux (pat repl : List Char) : List Char → List Char
  | [] => if pat = [] then repl else []
  | c :: rest =>
      if pat.isPrefixOf (c :: rest) then repl ++ (c :: rest).drop pat.length
      else c :: replaceFirstAux pat repl rest

/-- JS s.replace(pat, repl) for a string pattern (first occurrence only). -/
def replaceFirst (s pat repl : String) : String :=
  String.mk (replaceFirstAux pat.data repl.data s.data)

/-- Whether pat occurs as a contiguous run inside s (character lists). -/
def hasSubstr : List Char → List Char → Bool
  | [], pat => pat.isEmpty
  | c :: rest, pat => pat.isPrefixOf (c :: rest) || hasSubstr rest pat

/-! ### The event bus (lib/event.js)

The module-level LISTENERS map holds, per event name, the JS Set of attached
listener functions.  A listener function is either a user function passed to
on (identified by its index into a pure environment of user functions), the
self-removing closure created by once around a user function (the uid field
distinguishes the distinct closures produced by repeated once calls on the
same user function), or the self-removing closure created by the
promise-returning mode of once, which resolves the promise pid. -/

inductive Listener where
  | user (f : Nat)
  | onceWrap (ev : String) (uid : Nat) (f : Nat)
  | onceResolve (ev : String) (pid : Nat)
deriving DecidableEq, Repr

/-- Environment of user listener functions: payload and sender to return
value (undefined models a JS function returning undefined). -/
abbrev Fns : Type := Nat → JSVal → JSVal → JSVal

/-- A listener registry: event name to the JS Set of listeners. -/
abbrev Reg : Type := List (String × List Listener)

/-- LISTENERS.get(event) with a missing entry read as the empty set. -/
def listenersFor (r : Reg) (e : String) : List Listener :=
  (alookup r e).getD []

/-- The argument passed in a JS listener position: absent (undefined), a
non-function value, or a function. -/
inductive JSArg where
  | missing
  | nonFn (v : JSVal)
  | fn (f : Nat)
deriving DecidableEq, Repr

/-- JS falsiness of a listener-position argument. -/
def argFalsy : JSArg → Bool
  | .missing => true
  | .nonFn v => !(truthy v)
  | .fn _ => false

/-- The check listener.constructor === Function of the source, which holds
exactly for function values (modelled for ordinary JS values, whose
constructor is not Function unless they are functions). -/
def isFn : JSArg → Bool
  | .fn _ => true
  | _ => false

namespace Event

/-- NAMESPACE of lib/event.js. -/
def NAMESPACE : String := "@krome/event"

/-- The mutable module state of lib/event.js: the LISTENERS map, plus a
fresh-identity counter standing for JS heap allocation of the closures and
promises created by once. -/
structure Bus where
  reg : Reg
  nextId : Nat
deriving DecidableEq, Repr

/-- The empty initial module state. -/
def bus0 : Bus := ⟨[], 0⟩

/-- Internal registration step shared by on and once: the body of on after
its guard (create the Set on first use, then Set.add the listener). -/
def addListener (st : Bus) (event : String) (l : Listener) : Bus :=
  { st with reg := aset st.reg event (sadd (listenersFor st.reg event) l) }

/-- export function on(event, listener) of lib/event.js. -/
def «on» (st : Bus) (event : String) (listener : JSArg) : Bus :=
  if event = "" ∨ argFalsy listener ∨ isFn listener = false then st
  else
    match listener with
    | .fn f => addListener st event (.user f)
    | _ => st

/-- Internal removal step: the body of off after its guard (delete the
listener from the Set when the event has an entry). -/
def removeListener (st : Bus) (event : String) (l : Listener) : Bus :=
  match alookup st.reg event with
  | none => st
  | some s => { st with reg := aset st.reg event (s.erase l) }

/-- The call off(event, wrapped) made from inside a once closure: wrapped is
a function, so only the empty-event guard of off is relevant. -/
def offWrapped (st : Bus) (event : String) (l : Listener) : Bus :=
  if event = "" then st else removeListener st event l

/-- export function off(event, listener) of lib/event.js. -/
def off (st : Bus) (event : String) (listener : JSArg) : Bus :=
  if event = "" ∨ argFalsy listener ∨ isFn listener = false then st
  else
    match listener with
    | .fn f => removeListener st event (.user f)
    | _ => st

/-- export function once(event, listener) of lib/event.js.  Returns the new
state together with some pid when the call returns a promise (the branch
taken whenever the listener argument is not a function). -/
def once (st : Bus) (event : String) (listener : JSArg) : Bus × Option Nat :=
  if event = "" then (st, none)
  else if isFn listener = true then
    match listener with
    | .fn f =>
        let st1 := addListener st event (.onceWrap event st.nextId f)
        ({ st1 with nextId := st1.nextId + 1 }, none)
    | _ => (st, none)
  else
    let st1 := addListener st event (.onceResolve event st.nextId)
    ({ st1 with nextId := st1.nextId + 1 }, some st.nextId)

/-- Invocation of one listener from the dispatch loop: the new module state,
the user-function invocations it performs (function index and payload), its
raw return value, and the promise resolutions it performs. -/
def invoke (fns : Fns) (st : Bus) (l : Listener) (payload sender : JSVal) :
    Bus × List (Nat × JSVal) × JSVal × List (Nat × JSVal) :=
  match l with
  | .user f => (st, [(f, payload)], fns f payload sender, [])
  | .onceWrap ev uid f =>
      (offWrapped st ev (.onceWrap ev uid f), [(f, payload)], .undefined, [])
  | .onceResolve ev pid =>
      (offWrapped st ev (.onceResolve ev pid), [], .undefined, [(pid, payload)])

/-- The for-of loop of the inbound dispatcher over a snapshot of the Set
(JS Set iteration is safe under self-removal of already-visited elements):
threads the module state, concatenates invocation traces, collects the raw
return values that are not undefined, and concatenates resolutions. -/
def dispatchList (fns : Fns) (st : Bus) (snap : List Listener)
    (payload sender : JSVal) :
    Bus × List (Nat × JSVal) × List JSVal × List (Nat × JSVal) :=
  match snap with
  | [] => (st, [], [], [])
  | l :: rest =>
      match invoke fns st l payload sender with
      | (st1, t1, r1, p1) =>
          match dispatchList fns st1 rest payload sender with
          | (st2, t2, rs, ps) =>
              (st2, t1 ++ t2,
               (if r1 = JSVal.undefined then rs else r1 :: rs), p1 ++ ps)

/-- Awaiting a collected response: a promise contributes its resolved value,
a plain value contributes itself (Promise.resolve then .then). -/
def await : JSVal → JSVal
  | .promise v => v
  | v => v

/-- The value passed to the respond callback: the 0/1/many switch at the end
of the inbound dispatcher. -/
inductive RespondVal where
  | val (v : JSVal)
  | seq (vs : List JSVal)
deriving DecidableEq, Repr

/-- The switch (responses.length) of the dispatcher: no responses means
respond() (undefined), one response is awaited and passed alone, several are
awaited and passed as the ordered sequence (Promise.all). -/
def aggregate (rs : List JSVal) : RespondVal :=
  match rs with
  | [] => .val .undefined
  | [r] => .val (await r)
  | _ => .seq (rs.map await)

/-- Result of one run of the chrome.runtime.onMessage listener of
lib/event.js: the new module state, the value handed to respond when respond
was invoked (none when the message was ignored), the user invocations and
the promise resolutions performed. -/
structure HandlerOut where
  st : Bus
  responded : Option RespondVal
  trace : List (Nat × JSVal)
  resolved : List (Nat × JSVal)
deriving Repr

/-- The chrome.runtime.onMessage listener of lib/event.js. -/
def onMessage (fns : Fns) (st : Bus) (event : String) (payload sender : JSVal) :
    HandlerOut :=
  if event = "" ∨ strStartsWith event NAMESPACE = false then
    ⟨st, none, [], []⟩
  else
    match alookup st.reg (replaceFirst event (NAMESPACE ++ "/") "") with
    | none => ⟨st, some (.val .undefined), [], []⟩
    | some snap =>
        match dispatchList fns st snap payload sender with
        | (st1, tr, rs, ps) => ⟨st1, some (aggregate rs), tr, ps⟩

/-- Outcome of export function emit of lib/event.js, parametrized by the
host behaviour at the callback: lastError (some description when the host
reports a delivery failure) and the host-produced response value.  noop
models the undefined return taken on a falsy event name; sent records the
target (some id for chrome.tabs.sendMessage, none for the broadcast
chrome.runtime.sendMessage), the envelope, and how the returned promise
settles (Except.error e models rejection with the host error, Except.ok r
resolution with the response). -/
inductive EmitResult where
  | noop
  | sent (target : Option Int) (msg : Message) (outcome : Except JSVal JSVal)
deriving Repr

/-- The if (tab) dispatch between chrome.tabs.sendMessage and
chrome.runtime.sendMessage: the target is the tab id exactly when the
(post-shuffle) tab argument is truthy. -/
def emitTarget (tab : JSVal) : Option Int :=
  if truthy tab = true then
    match tab with
    | .num n => some n
    | _ => none
  else none

/-- export function emit(tab, event, payload) of lib/event.js, over its
three JS argument positions (the parameter shuffle applies when the first
argument is not a number). -/
def emit (lastError : Option JSVal) (response : JSVal) (a b c : JSVal) :
    EmitResult :=
  let args := match a with
    | .num n => (JSVal.num n, b, c)
    | _ => (JSVal.undefined, a, b)
  match args with
  | (tab, event, payload) =>
      if truthy event = false then .noop
      else
        .sent (emitTarget tab)
          ⟨NAMESPACE ++ "/" ++ jsToString event, payload⟩
          (match lastError with
           | some e => .error e
           | none => .ok response)

/-! ### Structural facts about the dispatch loop -/

/-- The user invocations one listener performs, as a function of the listener
alone (a user function or a once wrapper invokes the wrapped function with
the payload; a promise resolver invokes no user function). -/
def listenerTrace (payload : JSVal) : Listener → List (Nat × JSVal)
  | .user f => [(f, payload)]
  | .onceWrap _ _ f => [(f, payload)]
  | .onceResolve _ _ => []

/-- The raw return value of one listener in the dispatch loop: user
functions return their value, both once closures return undefined. -/
def rawReturn (fns : Fns) (payload sender : JSVal) : Listener → JSVal
  | .user f => fns f payload sender
  | .onceWrap _ _ _ => .undefined
  | .onceResolve _ _ => .undefined

/-- The promise resolutions one listener performs. -/
def listenerResolved (payload : JSVal) : Listener → List (Nat × JSVal)
  | .onceResolve _ pid => [(pid, payload)]
  | _ => []

/-- The non-undefined raw return values of a listener snapshot, in
registration order: the responses array built by the dispatch loop. -/
def collectedResponses (fns : Fns) (snap : List Listener)
    (payload sender : JSVal) : List JSVal :=
  (snap.map (rawReturn fns payload sender)).filter
    (fun r => decide (r ≠ JSVal.undefined))

/-- The state effect of one listener invocation (a once closure removes
itself from its own event, a user function leaves the registry unchanged). -/
def removeStep (st : Bus) : Listener → Bus
  | .user _ => st
  | .onceWrap ev uid f => offWrapped st ev (.onceWrap ev uid f)
  | .onceResolve ev pid => offWrapped st ev (.onceResolve ev pid)

/-- Whether invoking the listener erases it from the listener set of event E
(the once closures do, for their own non-empty event). -/
def removesFrom (E : String) : Listener → Bool
  | .user _ => false
  | .onceWrap ev _ _ => ev == E && !(ev == "")
  | .onceResolve ev _ => ev == E && !(ev == "")

/-- Erase, in order, each element of rs from l (first occurrences). -/
def eraseAll (l rs : List Listener) : List Listener :=
  rs.foldl List.erase l

/-! ### Weight counting for the at-most-once properties -/

/-- How many invocations of user function f one listener performs. -/
def fWeight (f : Nat) : Listener → Nat
  | .user g => if g = f then 1 else 0
  | .onceWrap _ _ g => if g = f then 1 else 0
  | .onceResolve _ _ => 0

/-- How many resolutions of promise pid one listener performs. -/
def pWeight (pid : Nat) : Listener → Nat
  | .onceResolve _ q => if q = pid then 1 else 0
  | _ => 0

/-- Total weight of a listener list. -/
def wsum (g : Listener → Nat) (l : List Listener) : Nat :=
  (l.map g).sum

/-- Number of invocations of user function f in a trace. -/
def traceCount (f : Nat) (tr : List (Nat × JSVal)) : Nat :=
  tr.countP (fun e => e.1 == f)

/-- Iterated inbound dispatch of the same wire event name over a list of
(payload, sender) pairs, collecting the user invocations and promise
resolutions of the whole sequence. -/
def onMessageSeq (fns : Fns) (st : Bus) (event : String) :
    List (JSVal × JSVal) → Bus × List (Nat × JSVal) × List (Nat × JSVal)
  | [] => (st, [], [])
  | (p, s) :: rest =>
      ((onMessageSeq fns (onMessage fns st event p s).st event rest).1,
       (onMessage fns st event p s).trace ++
         (onMessageSeq fns (onMessage fns st event p s).st event rest).2.1,
       (onMessage fns st event p s).resolved ++
         (onMessageSeq fns (onMessage fns st event p s).st event rest).2.2)

end Event

namespace ChannelApi

/-! ### The Channel module (lib/channel.js) -/

/-- NAMESPACE of lib/channel.js. -/
def NAMESPACE : String := "@krome/channel"

/-- A Channel: the name of its underlying port and its own listener
registry (independent of the global event bus registry). -/
structure Channel where
  name : String
  listeners : Reg
deriving DecidableEq, Repr

/-- The guarded body of Channel.prototype.emit: the messages posted to the
underlying port by one call.  An empty (falsy) event name is dropped by the
guard, and the reserved disconnect event is never posted. -/
def emitPosts (event : String) (payload : JSVal) : List Message :=
  if event = "" then []
  else if event ≠ "disconnect" then [⟨event, payload⟩] else []

/-- Channel.prototype.emit of lib/channel.js, as the list of messages
posted to this channel's port (empty when the call is a no-op). -/
def Channel.emit (_c : Channel) (event : String) (payload : JSVal) :
    List Message :=
  emitPosts event payload

/-- The invoke closure of the Channel constructor, dispatching one inbound
event to the channel's own listeners (fire-and-forget: return values are
ignored; the loop body is the same listener-invocation shape as the event
bus dispatch loop, so it is shared with it): the updated registry (once
wrappers self-remove) and the invocation trace.  The sender enrichment
with a Tab wrapper carries no payload information and is outside the
model. -/
def chanInvoke (fns : Fns) (r : Reg) (event : String) (payload sender : JSVal) :
    Reg × List (Nat × JSVal) :=
  if event = "" then (r, [])
  else
    match alookup r event with
    | none => (r, [])
    | some snap =>
        ((Event.dispatchList fns ⟨r, 0⟩ snap payload sender).1.reg,
         (Event.dispatchList fns ⟨r, 0⟩ snap payload sender).2.1)

/-- The HANDLERS map of lib/channel.js: channel name to the set of queued
handler callbacks (handlers defunctionalized as identifiers). -/
abbrev Handlers : Type := List (String × List Nat)

/-- function create(name, port) of lib/channel.js: construct the Channel
for the port and invoke every handler queued under the name; the HANDLERS
map is not touched, so the invoked handlers are exactly the queue under
that exact name, in insertion order. -/
def create (hs : Handlers) (name : String) : Channel × List Nat :=
  (⟨name, []⟩, (alookup hs name).getD [])

/-- The chrome.runtime.onConnect listener of lib/channel.js, as a function
of the HANDLERS map and the inbound port name: the (unchanged) HANDLERS
map, and none when the name does not start with the channel namespace (the
connection is ignored), otherwise the created Channel together with the
invoked handlers. -/
def onConnect (hs : Handlers) (portName : String) :
    Handlers × Option (Channel × List Nat) :=
  if strStartsWith portName NAMESPACE = true
  then (hs, some (create hs portName))
  else (hs, none)

end ChannelApi

namespace TunnelApi

/-! ### The Tunnel module (lib/tunnel.js) -/

/-- Tunnel.prototype.emit: wrap the application event one level deeper and
send a single reserved event envelope through the underlying Channel. -/
def tunnelEmit (c : ChannelApi.Channel) (event : String) (payload : JSVal) :
    List Message :=
  c.emit "event" (.envl event payload)

/-- The two peer roles of a tunnel. -/
inductive Role where
  | devtools
  | contents
deriving DecidableEq, Repr

/-- The counterpart role (the remote table of the listen closure). -/
def opposite : Role → Role
  | .devtools => .contents
  | .contents => .devtools

/-- The per-connection state of the broker-side closures installed by
listen for one inbound connection: the role (from the role-qualified
channel name), the channel identifier, the captured closure variable tab
(undefined until the init handshake fills it), and whether the
once-registered init listener is still attached. -/
structure BrokerConn where
  role : Role
  chan : Nat
  tab : JSVal
  initPending : Bool
deriving DecidableEq, Repr

/-- The broker state of one create(name) call: the devtools and contents
peer tables (JS Map from peer identity to the recorded peer Channel,
identified here by its channel id) and the per-connection closures. -/
structure Broker where
  devtools : List (JSVal × Nat)
  contents : List (JSVal × Nat)
  conns : List BrokerConn
deriving DecidableEq, Repr

/-- The broker state right after create(name): both tables empty. -/
def broker0 : Broker := ⟨[], [], []⟩

/-- The host table of a role. -/
def tableOf (b : Broker) : Role → List (JSVal × Nat)
  | .devtools => b.devtools
  | .contents => b.contents

def setTable (b : Broker) : Role → List (JSVal × Nat) → Broker
  | .devtools, t => { b with devtools := t }
  | .contents, t => { b with contents := t }

/-- The identity under which a connecting peer is recorded by its init
handshake: the devtools role records the caller-supplied init payload, the
contents role records the tab id of the connecting sender. -/
def idOf : Role → JSVal → JSVal → JSVal
  | .devtools, payload, _ => payload
  | .contents, _, senderTabId => senderTabId

def findConn : List BrokerConn → Nat → Option BrokerConn
  | [], _ => none
  | c :: rest, k => if c.chan = k then some c else findConn rest k

def updateConn : List BrokerConn → Nat → BrokerConn → List BrokerConn
  | [], _, _ => []
  | c :: rest, k, c2 =>
      if c.chan = k then c2 :: rest else c :: updateConn rest k c2

def removeConn : List BrokerConn → Nat → List BrokerConn
  | [], _ => []
  | c :: rest, k => if c.chan = k then rest else c :: removeConn rest k

/-- A new inbound broker-side connection for a role: the queued
channel.connect handler of listen runs, attaching the once init listener,
the event relay and the disconnect cleanup, with the closure variable tab
still undefined. -/
def connectPeer (b : Broker) (role : Role) (chan : Nat) : Broker :=
  { b with conns := b.conns ++ [⟨role, chan, .undefined, true⟩] }

/-- An envelope {event, payload} arriving on broker-side connection chan
from a peer whose sender carries tab id senderTabId, dispatched by that
broker channel's listeners: the new broker state and the messages posted
to other channels (the relay).  A first init records
host.set(identity, channel) and detaches the once listener; a later init
on the same connection is ignored (the once wrapper removed itself).  An
event envelope destructures its payload as the inner {event, payload} and,
when the opposite table has an entry under the closure's tab, relays it
with Channel emit to that recorded counterpart; with no entry it is
silently dropped, and in both cases no error is raised to the emitting
side (the function is total and merely posts nothing).  A
disconnect-labelled dispatch runs the cleanup host.delete(tab). -/
def recvMsg (b : Broker) (chan : Nat) (event : String)
    (payload senderTabId : JSVal) : Broker × List (Nat × Message) :=
  match findConn b.conns chan with
  | none => (b, [])
  | some conn =>
      if event = "init" then
        if conn.initPending = true then
          (let i := idOf conn.role payload senderTabId
           { setTable b conn.role (aset (tableOf b conn.role) i chan) with
               conns := updateConn b.conns chan ⟨conn.role, conn.chan, i, false⟩ },
           [])
        else (b, [])
      else if event = "event" then
        (b, match alookup (tableOf b (opposite conn.role)) conn.tab with
            | none => []
            | some rchan =>
                (ChannelApi.emitPosts (evOf payload) (plOf payload)).map
                  (fun m => (rchan, m)))
      else if event = "disconnect" then
        (setTable b conn.role (adel (tableOf b conn.role) conn.tab), [])
      else (b, [])

/-- The port-level onDisconnect of broker-side connection chan: the Channel
synthesizes the disconnect event, so the registered cleanup removes the
connection's identity from its role's table, and the dead port delivers
nothing further (the connection closures become unreachable). -/
def peerDisconnect (b : Broker) (chan : Nat) : Broker :=
  match findConn b.conns chan with
  | none => b
  | some conn =>
      { setTable b conn.role (adel (tableOf b conn.role) conn.tab) with
          conns := removeConn b.conns chan }

/-- The alphabet of broker-observable transport happenings. -/
inductive BEvent where
  | connect (role : Role) (chan : Nat)
  | msg (chan : Nat) (event : String) (payload senderTabId : JSVal)
  | disc (chan : Nat)
deriving DecidableEq, Repr

/-- Whether the happening is an init-labelled message. -/
def isInitMsg : BEvent → Bool
  | .msg _ event _ _ => event == "init"
  | _ => false

/-- State effect of one broker-observable happening. -/
def brokerStep (b : Broker) : BEvent → Broker
  | .connect role chan => connectPeer b role chan
  | .msg chan event payload senderTabId =>
      (recvMsg b chan event payload senderTabId).1
  | .disc chan => peerDisconnect b chan

/-- The broker state after a trace of happenings from the initial state. -/
def brokerRun (b : Broker) : List BEvent → Broker
  | [] => b
  | e :: rest => brokerRun (brokerStep b e) rest

end TunnelApi

theorem alookup_aset_self {κ α : Type} [DecidableEq κ]
    (r : List (κ × α)) (k : κ) (v : α) : alookup (aset r k v) k = some v := by
  induction r with
  | nil => simp [aset, alookup]
  | cons hd tl ih =>
      obtain ⟨k0, v0⟩ := hd
      by_cases h : k0 = k <;> simp [aset, alookup, h, ih]

theorem alookup_aset_ne {κ α : Type} [DecidableEq κ]
    (r : List (κ × α)) (k k' : κ) (v : α) (h : k' ≠ k) :
    alookup (aset r k v) k' = alookup r k' := by
  induction r with
  | nil => simp [aset, alookup, Ne.symm h]
  | cons hd tl ih =>
      obtain ⟨k0, v0⟩ := hd
      by_cases h0 : k0 = k
      · subst h0
        simp [aset, alookup, Ne.symm h]
      · simp [aset, alookup, h0, ih]

theorem aset_self_of_lookup {κ α : Type} [DecidableEq κ]
    (r : List (κ × α)) (k : κ) (v : α) (h : alookup r k = some v) :
    aset r k v = r := by
  induction r with
  | nil => simp [alookup] at h
  | cons hd tl ih =>
      obtain ⟨k0, v0⟩ := hd
      by_cases h0 : k0 = k
      · subst h0
        simp [alookup] at h
        simp [aset, h]
      · simp [alookup, h0] at h
        simp [aset, h0, ih h]

theorem alookup_eq_none_of_not_mem_keys {κ α : Type} [DecidableEq κ]
    (r : List (κ × α)) (k : κ) (h : k ∉ r.map Prod.fst) : alookup r k = none := by
  induction r with
  | nil => simp [alookup]
  | cons hd tl ih =>
      obtain ⟨k0, v0⟩ := hd
      simp only [List.map_cons, List.mem_cons, not_or] at h
      simp [alookup, Ne.symm h.1, ih h.2]

theorem alookup_adel_self {κ α : Type} [DecidableEq κ]
    (r : List (κ × α)) (k : κ) (hnd : (r.map Prod.fst).Nodup) :
    alookup (adel r k) k = none := by
  induction r with
  | nil => simp [adel, alookup]
  | cons hd tl ih =>
      obtain ⟨k0, v0⟩ := hd
      simp only [List.map_cons, List.nodup_cons] at hnd
      by_cases h0 : k0 = k
      · subst h0
        simp only [adel, if_pos rfl]
        exact alookup_eq_none_of_not_mem_keys tl k0 hnd.1
      · simp [adel, alookup, h0, ih hnd.2]

theorem alookup_adel_ne {κ α : Type} [DecidableEq κ]
    (r : List (κ × α)) (k k' : κ) (h : k' ≠ k) :
    alookup (adel r k) k' = alookup r k' := by
  induction r with
  | nil => simp [adel]
  | cons hd tl ih =>
      obtain ⟨k0, v0⟩ := hd
      by_cases h0 : k0 = k
      · subst h0
        simp [adel, alookup, Ne.symm h]
      · simp [adel, alookup, h0, ih]

theorem mem_keys_aset {κ α : Type} [DecidableEq κ]
    (r : List (κ × α)) (k : κ) (v : α) (k' : κ)
    (h : k' ∈ (aset r k v).map Prod.fst) : k' ∈ r.map Prod.fst ∨ k' = k := by
  induction r with
  | nil =>
      simp only [aset, List.map_cons, List.map_nil, List.mem_singleton] at h
      exact Or.inr h
  | cons hd tl ih =>
      obtain ⟨k0, v0⟩ := hd
      by_cases h0 : k0 = k
      · subst h0
        simp only [aset, eq_self_iff_true, if_true, List.map_cons, List.mem_cons] at h
        simp only [List.map_cons, List.mem_cons]
        rcases h with h | h
        · exact Or.inr h
        · exact Or.inl (Or.inr h)
      · simp only [aset, if_neg h0, List.map_cons, List.mem_cons] at h
        simp only [List.map_cons, List.mem_cons]
        rcases h with h | h
        · exact Or.inl (Or.inl h)
        · rcases ih h with h2 | h2
          · exact Or.inl (Or.inr h2)
          · exact Or.inr h2

theorem aset_keys_nodup {κ α : Type} [DecidableEq κ]
    (r : List (κ × α)) (k : κ) (v : α) (hnd : (r.map Prod.fst).Nodup) :
    ((aset r k v).map Prod.fst).Nodup := by
  induction r with
  | nil => simp [aset]
  | cons hd tl ih =>
      obtain ⟨k0, v0⟩ := hd
      simp only [List.map_cons, List.nodup_cons] at hnd
      by_cases h0 : k0 = k
      · subst h0
        simp only [aset, eq_self_iff_true, if_true, List.map_cons, List.nodup_cons]
        exact hnd
      · simp only [aset, if_neg h0, List.map_cons, List.nodup_cons]
        refine ⟨fun hm => ?_, ih hnd.2⟩
        rcases mem_keys_aset tl k v k0 hm with h2 | h2
        · exact hnd.1 h2
        · exact h0 h2

theorem mem_keys_adel {κ α : Type} [DecidableEq κ]
    (r : List (κ × α)) (k k' : κ)
    (h : k' ∈ (adel r k).map Prod.fst) : k' ∈ r.map Prod.fst := by
  induction r with
  | nil => simp [adel] at h
  | cons hd tl ih =>
      obtain ⟨k0, v0⟩ := hd
      by_cases h0 : k0 = k
      · subst h0
        simp only [adel, if_pos rfl] at h
        simp only [List.map_cons, List.mem_cons]
        exact Or.inr h
      · simp only [adel, if_neg h0, List.map_cons, List.mem_cons] at h
        simp only [List.map_cons, List.mem_cons]
        rcases h with h | h
        · exact Or.inl h
        · exact Or.inr (ih h)

theorem mem_of_mem_adel {κ α : Type} [DecidableEq κ]
    (r : List (κ × α)) (k : κ) (e : κ × α) (h : e ∈ adel r k) : e ∈ r := by
  induction r with
  | nil => simp [adel] at h
  | cons hd tl ih =>
      obtain ⟨k0, v0⟩ := hd
      by_cases h0 : k0 = k
      · subst h0
        simp only [adel, if_pos rfl] at h
        exact List.mem_cons_of_mem _ h
      · simp only [adel, if_neg h0, List.mem_cons] at h
        rcases h with h | h
        · exact h ▸ List.mem_cons_self _ _
        · exact List.mem_cons_of_mem _ (ih h)

theorem adel_keys_nodup {κ α : Type} [DecidableEq κ]
    (r : List (κ × α)) (k : κ) (hnd : (r.map Prod.fst).Nodup) :
    ((adel r k).map Prod.fst).Nodup := by
  induction r with
  | nil => simp [adel]
  | cons hd tl ih =>
      obtain ⟨k0, v0⟩ := hd
      simp only [List.map_cons, List.nodup_cons] at hnd
      by_cases h0 : k0 = k
      · subst h0
        simpa [adel] using hnd.2
      · simp only [adel, if_neg h0, List.map_cons, List.nodup_cons]
        exact ⟨fun hm => hnd.1 (mem_keys_adel tl k k0 hm), ih hnd.2⟩

namespace Event

/-- The dispatch loop decomposed: the final state is the fold of the
self-removals, and the trace, response and resolution outputs are functions
of the snapshot alone (each listener's behaviour is independent of the
registry mutations performed by earlier iterations). -/
theorem dispatchList_eq (fns : Fns) (st : Bus) (snap : List Listener)
    (p s : JSVal) :
    dispatchList fns st snap p s =
      (snap.foldl removeStep st,
       snap.flatMap (listenerTrace p),
       collectedResponses fns snap p s,
       snap.flatMap (listenerResolved p)) := by
  induction snap generalizing st with
  | nil => simp [dispatchList, collectedResponses]
  | cons l rest ih =>
      cases l with
      | user f =>
          by_cases hr : fns f p s = JSVal.undefined <;>
            simp [dispatchList, invoke, ih, collectedResponses, listenerTrace,
              listenerResolved, removeStep, rawReturn, hr]
      | onceWrap ev uid f =>
          simp [dispatchList, invoke, ih, collectedResponses, listenerTrace,
            listenerResolved, removeStep, rawReturn]
      | onceResolve ev pid =>
          simp [dispatchList, invoke, ih, collectedResponses, listenerTrace,
            listenerResolved, removeStep, rawReturn]

/-- Effect of one removal step on the listener set of an event E. -/
theorem listenersFor_removeStep (st : Bus) (l : Listener) (E : String) :
    listenersFor (removeStep st l).reg E =
      (if removesFrom E l = true
       then (listenersFor st.reg E).erase l
       else listenersFor st.reg E) := by
  cases l with
  | user f => simp [removeStep, removesFrom]
  | onceWrap ev uid f =>
      by_cases hev : ev = ""
      · subst hev
        simp [removeStep, offWrapped, removesFrom]
      · by_cases hE : ev = E
        · subst hE
          simp only [removeStep, offWrapped, if_neg hev, removesFrom,
            removeListener]
          cases hl : alookup st.reg ev with
          | none => simp [listenersFor, hl, hev]
          | some s => simp [listenersFor, hl, hev, alookup_aset_self]
        · simp only [removeStep, offWrapped, if_neg hev, removesFrom,
            removeListener]
          cases hl : alookup st.reg ev with
          | none => simp [hE]
          | some s =>
              simp only [beq_iff_eq, if_neg hE, Bool.false_and]
              simp [listenersFor, alookup_aset_ne _ _ _ _ (Ne.symm hE), hE]
  | onceResolve ev pid =>
      by_cases hev : ev = ""
      · subst hev
        simp [removeStep, offWrapped, removesFrom]
      · by_cases hE : ev = E
        · subst hE
          simp only [removeStep, offWrapped, if_neg hev, removesFrom,
            removeListener]
          cases hl : alookup st.reg ev with
          | none => simp [listenersFor, hl, hev]
          | some s => simp [listenersFor, hl, hev, alookup_aset_self]
        · simp only [removeStep, offWrapped, if_neg hev, removesFrom,
            removeListener]
          cases hl : alookup st.reg ev with
          | none => simp [hE]
          | some s =>
              simp only [beq_iff_eq, if_neg hE, Bool.false_and]
              simp [listenersFor, alookup_aset_ne _ _ _ _ (Ne.symm hE), hE]

/-- The listener set of E after the whole dispatch fold: the original set
with the self-removing listeners of the snapshot erased in order. -/
theorem listenersFor_foldl_removeStep (snap : List Listener) (st : Bus)
    (E : String) :
    listenersFor ((snap.foldl removeStep st).reg) E =
      eraseAll (listenersFor st.reg E) (snap.filter (removesFrom E)) := by
  induction snap generalizing st with
  | nil => simp [eraseAll]
  | cons l rest ih =>
      by_cases hl : removesFrom E l = true
      · have h1 := listenersFor_removeStep st l E
        rw [if_pos hl] at h1
        simp only [List.foldl_cons, List.filter_cons, hl, if_true]
        rw [ih, h1]
        rfl
      · simp only [List.foldl_cons, List.filter_cons, hl]
        rw [ih, listenersFor_removeStep, if_neg hl]
        simp [hl]

theorem eraseAll_sublist (l rs : List Listener) :
    List.Sublist (eraseAll l rs) l := by
  induction rs generalizing l with
  | nil => simp [eraseAll]
  | cons r rest ih =>
      exact List.Sublist.trans (ih (l.erase r)) (List.erase_sublist r l)

theorem count_eraseAll_le (l rs : List Listener) (a : Listener) :
    (eraseAll l rs).count a ≤ l.count a :=
  (eraseAll_sublist l rs).count_le a

theorem count_eraseAll_of_mem (l rs : List Listener) (w : Listener)
    (h : w ∈ rs) : (eraseAll l rs).count w ≤ l.count w - 1 := by
  induction rs generalizing l with
  | nil => simp at h
  | cons r rest ih =>
      rcases List.mem_cons.mp h with h0 | h0
      · subst h0
        calc (eraseAll (l.erase w) rest).count w
            ≤ (l.erase w).count w := count_eraseAll_le _ _ _
          _ = l.count w - 1 := List.count_erase_self w l
      · calc (eraseAll (l.erase r) rest).count w
            ≤ (l.erase r).count w - 1 := ih (l.erase r) h0
          _ ≤ l.count w - 1 :=
            Nat.sub_le_sub_right ((List.erase_sublist r l).count_le w) 1

theorem wsum_sublist_le (g : Listener → Nat) (l1 l2 : List Listener)
    (h : List.Sublist l1 l2) : wsum g l1 ≤ wsum g l2 := by
  induction h with
  | slnil => exact Nat.le_refl 0
  | cons a h ih => simp only [wsum, List.map_cons, List.sum_cons] at ih ⊢; omega
  | cons₂ a h ih => simp only [wsum, List.map_cons, List.sum_cons] at ih ⊢; omega

theorem wsum_eq_zero_iff (g : Listener → Nat) (l : List Listener) :
    wsum g l = 0 ↔ ∀ x ∈ l, g x = 0 := by
  simp [wsum, List.sum_eq_zero_iff]

theorem traceCount_flatMap (f : Nat) (p : JSVal) (snap : List Listener) :
    traceCount f (snap.flatMap (listenerTrace p)) = wsum (fWeight f) snap := by
  induction snap with
  | nil => simp [traceCount, wsum]
  | cons l rest ih =>
      simp only [List.flatMap_cons, traceCount, List.countP_append, wsum,
        List.map_cons, List.sum_cons]
      have hl : (listenerTrace p l).countP (fun e => e.1 == f) = fWeight f l := by
        cases l with
        | user g => by_cases hg : g = f <;>
            simp [listenerTrace, fWeight, List.countP_cons, hg]
        | onceWrap ev uid g => by_cases hg : g = f <;>
            simp [listenerTrace, fWeight, List.countP_cons, hg]
        | onceResolve ev q => simp [listenerTrace, fWeight]
      rw [hl]
      simp only [traceCount, wsum] at ih
      omega

theorem resolvedCount_flatMap (pid : Nat) (p : JSVal) (snap : List Listener) :
    (snap.flatMap (listenerResolved p)).countP (fun e => e.1 == pid) =
      wsum (pWeight pid) snap := by
  induction snap with
  | nil => simp [wsum]
  | cons l rest ih =>
      simp only [List.flatMap_cons, List.countP_append, wsum, List.map_cons,
        List.sum_cons]
      have hl : (listenerResolved p l).countP (fun e => e.1 == pid) =
          pWeight pid l := by
        cases l with
        | user g => simp [listenerResolved, pWeight]
        | onceWrap ev uid g => simp [listenerResolved, pWeight]
        | onceResolve ev q => by_cases hq : q = pid <;>
            simp [listenerResolved, pWeight, List.countP_cons, hq]
      rw [hl]
      simp only [wsum] at ih
      omega

/-! ### The inbound handler on a namespaced wire name -/

theorem replaceFirstAux_append (pat e : List Char) :
    replaceFirstAux pat [] (pat ++ e) = e := by
  cases pe : pat ++ e with
  | nil =>
      rcases List.append_eq_nil.mp pe with ⟨h1, h2⟩
      subst h1
      subst h2
      simp [replaceFirstAux]
  | cons c rest =>
      have hpref : pat.isPrefixOf (c :: rest) = true := by
        rw [← pe, List.isPrefixOf_iff_prefix]
        exact List.prefix_append _ _
      have hd := List.drop_left pat e
      rw [pe] at hd
      simp only [replaceFirstAux, hpref, if_true, List.nil_append, hd]

/-- Stripping the namespace from a correctly namespaced wire name recovers
the logical event name (the leading occurrence is the first one). -/
theorem replaceFirst_ns (E : String) :
    replaceFirst (NAMESPACE ++ "/" ++ E) (NAMESPACE ++ "/") "" = E := by
  have hd : (NAMESPACE ++ "/" ++ E).data = (NAMESPACE ++ "/").data ++ E.data := by
    simp [String.data_append]
  simp only [replaceFirst, hd, replaceFirstAux_append]

theorem strStartsWith_ns (E : String) :
    strStartsWith (NAMESPACE ++ "/" ++ E) NAMESPACE = true := by
  simp only [strStartsWith, String.data_append, List.append_assoc,
    List.isPrefixOf_iff_prefix]
  exact List.prefix_append _ _

theorem ns_ne_empty (E : String) : NAMESPACE ++ "/" ++ E ≠ "" := by
  intro h
  have hd : (NAMESPACE ++ "/" ++ E).data = [] := by rw [h]
  rw [String.data_append, String.data_append] at hd
  rcases List.append_eq_nil.mp hd with ⟨h1, h2⟩
  rcases List.append_eq_nil.mp h1 with ⟨h3, h4⟩
  revert h3
  decide

/-- The inbound handler on the wire name of logical event E, in closed form:
it always responds, with the 0/1/many aggregation of the snapshot's
responses, performing the snapshot's invocations and resolutions and folding
the snapshot's self-removals into the state. -/
theorem onMessage_ns (fns : Fns) (st : Bus) (E : String) (p s : JSVal) :
    onMessage fns st (NAMESPACE ++ "/" ++ E) p s =
      (match alookup st.reg E with
       | none => ⟨st, some (.val .undefined), [], []⟩
       | some snap =>
           ⟨snap.foldl removeStep st,
            some (aggregate (collectedResponses fns snap p s)),
            snap.flatMap (listenerTrace p),
            snap.flatMap (listenerResolved p)⟩) := by
  rw [onMessage]
  rw [if_neg (by simp [ns_ne_empty E, strStartsWith_ns E])]
  rw [replaceFirst_ns]
  cases h : alookup st.reg E with
  | none => rfl
  | some snap => simp [dispatchList_eq]

theorem replaceFirstAux_no_occurrence (pat repl s : List Char)
    (h : hasSubstr s pat = false) : replaceFirstAux pat repl s = s := by
  induction s with
  | nil =>
      cases pat with
      | nil => simp [hasSubstr] at h
      | cons a as => simp [replaceFirstAux]
  | cons c rest ih =>
      rw [hasSubstr, Bool.or_eq_false_iff] at h
      rw [replaceFirstAux, if_neg (by simp [h.1]), ih h.2]

/-! ### Claim C1 -/

/-- C1: every inbound dispatch of a namespaced message invokes the responder
exactly once, with the value given by the 0/1/many rule over the
non-undefined return values of the listeners registered for the stripped
event name, in registration order: no value when zero such values (including
when no listener at all is registered), the single awaited value when
exactly one, and the ordered sequence of all awaited values when two or
more. -/
theorem claim1_response_aggregation (fns : Fns) (st : Bus) (event : String)
    (payload sender : JSVal) (h : strStartsWith event NAMESPACE = true) :
    (onMessage fns st event payload sender).responded =
      some (match collectedResponses fns
              (listenersFor st.reg (replaceFirst event (NAMESPACE ++ "/") ""))
              payload sender with
            | [] => RespondVal.val JSVal.undefined
            | [r] => RespondVal.val (await r)
            | rs => RespondVal.seq (List.map await rs)) := by
  have hne : ¬ event = "" := by
    intro he
    subst he
    revert h
    decide
  rw [onMessage, if_neg (by simp [hne, h])]
  cases hl : alookup st.reg (replaceFirst event (NAMESPACE ++ "/") "") with
  | none => simp [listenersFor, hl, collectedResponses]
  | some snap =>
      simp [listenersFor, hl, dispatchList_eq, aggregate]
      cases hcr : collectedResponses fns snap payload sender with
      | nil => rfl
      | cons a tl => cases tl <;> rfl

/-- Witness for C1: two listeners for foo return baz and fez; the dispatch
of the namespaced envelope responds with the ordered pair. -/
theorem claim1_response_aggregation_witness :
    strStartsWith "@krome/event/foo" NAMESPACE = true ∧
    (onMessage (fun f _ _ => if f = 0 then .str "baz" else .str "fez")
        ⟨[("foo", [.user 0, .user 1])], 2⟩ "@krome/event/foo"
        (.str "bar") .undefined).responded =
      some (RespondVal.seq [.str "baz", .str "fez"]) :=
  ⟨by decide, by
    rw [claim1_response_aggregation _ _ _ _ _ (by decide)]
    decide⟩

/-! ### Claim C10 -/

/-- C10 (amended): the inbound filter accepts any message whose event string
merely starts with the namespace, even when the separator does not follow
it; and when (as in both examples of the claim) the pattern stripped by the
replace step occurs nowhere in the event string, the strip leaves the name
unchanged and dispatch proceeds under that unstripped name instead of the
message being ignored. -/
theorem claim10_loose_namespace_filter (fns : Fns) (st : Bus) (event : String)
    (payload sender : JSVal)
    (h1 : strStartsWith event NAMESPACE = true)
    (h2 : hasSubstr event.data (NAMESPACE ++ "/").data = false) :
    (onMessage fns st event payload sender).responded.isSome = true ∧
    onMessage fns st event payload sender =
      (match alookup st.reg event with
       | none => ⟨st, some (.val .undefined), [], []⟩
       | some snap =>
           ⟨snap.foldl removeStep st,
            some (aggregate (collectedResponses fns snap payload sender)),
            snap.flatMap (listenerTrace payload),
            snap.flatMap (listenerResolved payload)⟩) := by
  have hne : ¬ event = "" := by
    intro he
    subst he
    revert h1
    decide
  have hrep : replaceFirst event (NAMESPACE ++ "/") "" = event := by
    rw [replaceFirst]
    rw [replaceFirstAux_no_occurrence _ _ _ h2]
  have hmain : onMessage fns st event payload sender =
      (match alookup st.reg event with
       | none => ⟨st, some (.val .undefined), [], []⟩
       | some snap =>
           ⟨snap.foldl removeStep st,
            some (aggregate (collectedResponses fns snap payload sender)),
            snap.flatMap (listenerTrace payload),
            snap.flatMap (listenerResolved payload)⟩) := by
    rw [onMessage, if_neg (by simp [hne, h1]), hrep]
    cases hl : alookup st.reg event with
    | none => rfl
    | some snap => simp [dispatchList_eq]
  refine ⟨?_, hmain⟩
  rw [hmain]
  cases alookup st.reg event <;> rfl

/-- C10 counterexample: an event name that starts with the namespace without
the separator following it, in which the strip pattern nevertheless occurs
later: the filter accepts it, but the strip changes the name, refuting the
unchanged-name part of the claim as stated. -/
theorem claim10_strip_changes_name :
    strStartsWith "@krome/eventx@krome/event/y" NAMESPACE = true ∧
    strStartsWith "@krome/eventx@krome/event/y" (NAMESPACE ++ "/") = false ∧
    replaceFirst "@krome/eventx@krome/event/y" (NAMESPACE ++ "/") "" =
      "@krome/eventxy" ∧
    replaceFirst "@krome/eventx@krome/event/y" (NAMESPACE ++ "/") "" ≠
      "@krome/eventx@krome/event/y" := by
  refine ⟨by decide, by decide, by decide, by decide⟩

/-- Witness for C10: the event equal to @krome/eventual/x is accepted and
dispatched under its own unstripped name (a listener registered under that
exact string is reached: the handler responds with its value). -/
theorem claim10_loose_namespace_filter_witness :
    strStartsWith "@krome/eventual/x" NAMESPACE = true ∧
    hasSubstr ("@krome/eventual/x").data (NAMESPACE ++ "/").data = false ∧
    (onMessage (fun _ _ _ => JSVal.num 1)
        ⟨[("@krome/eventual/x", [.user 0])], 1⟩ "@krome/eventual/x"
        (.num 7) .undefined).responded = some (RespondVal.val (.num 1)) :=
  ⟨by decide, by decide, by
    rw [(claim10_loose_namespace_filter (fun _ _ _ => JSVal.num 1)
      ⟨[("@krome/eventual/x", [.user 0])], 1⟩ "@krome/eventual/x"
      (.num 7) .undefined (by decide) (by decide)).2]
    decide⟩

/-! ### Claim C5 support -/

theorem wsum_append (g : Listener → Nat) (l1 l2 : List Listener) :
    wsum g (l1 ++ l2) = wsum g l1 + wsum g l2 := by
  simp [wsum]

theorem once_fn_eq (st : Bus) (E : String) (f : Nat) (hE : E ≠ "") :
    once st E (.fn f) =
      (⟨aset st.reg E (sadd (listenersFor st.reg E) (.onceWrap E st.nextId f)),
        st.nextId + 1⟩, none) := by
  simp [once, hE, isFn, addListener]

theorem once_promise_eq (st : Bus) (E : String) (a : JSArg) (hE : E ≠ "")
    (ha : isFn a = false) :
    once st E a =
      (⟨aset st.reg E (sadd (listenersFor st.reg E) (.onceResolve E st.nextId)),
        st.nextId + 1⟩, some st.nextId) := by
  cases a with
  | missing => simp [once, hE, isFn, addListener]
  | nonFn v => simp [once, hE, isFn, addListener]
  | fn f => simp [isFn] at ha

theorem onMessage_ns_trace (fns : Fns) (st : Bus) (E : String) (p s : JSVal) :
    (onMessage fns st (NAMESPACE ++ "/" ++ E) p s).trace =
      (listenersFor st.reg E).flatMap (listenerTrace p) := by
  rw [onMessage_ns]
  cases hl : alookup st.reg E with
  | none => simp [listenersFor, hl]
  | some snap => simp [listenersFor, hl]

theorem onMessage_ns_resolved (fns : Fns) (st : Bus) (E : String) (p s : JSVal) :
    (onMessage fns st (NAMESPACE ++ "/" ++ E) p s).resolved =
      (listenersFor st.reg E).flatMap (listenerResolved p) := by
  rw [onMessage_ns]
  cases hl : alookup st.reg E with
  | none => simp [listenersFor, hl]
  | some snap => simp [listenersFor, hl]

theorem onMessage_ns_listeners (fns : Fns) (st : Bus) (E : String) (p s : JSVal) :
    listenersFor ((onMessage fns st (NAMESPACE ++ "/" ++ E) p s).st).reg E =
      eraseAll (listenersFor st.reg E)
        ((listenersFor st.reg E).filter (removesFrom E)) := by
  rw [onMessage_ns]
  cases hl : alookup st.reg E with
  | none => simp [listenersFor, hl, eraseAll]
  | some snap =>
      have hsnap : listenersFor st.reg E = snap := by simp [listenersFor, hl]
      simp only [hl]
      rw [listenersFor_foldl_removeStep, hsnap]

theorem onMessage_ns_wsum_le (g : Listener → Nat) (fns : Fns) (st : Bus)
    (E : String) (p s : JSVal) :
    wsum g (listenersFor ((onMessage fns st (NAMESPACE ++ "/" ++ E) p s).st).reg E) ≤
      wsum g (listenersFor st.reg E) := by
  rw [onMessage_ns_listeners]
  exact wsum_sublist_le _ _ _ (eraseAll_sublist _ _)

theorem onMessageSeq_traceCount_zero (fns : Fns) (E : String) (f : Nat)
    (ps : List (JSVal × JSVal)) :
    ∀ st : Bus, wsum (fWeight f) (listenersFor st.reg E) = 0 →
      traceCount f (onMessageSeq fns st (NAMESPACE ++ "/" ++ E) ps).2.1 = 0 := by
  induction ps with
  | nil =>
      intro st h
      simp [onMessageSeq, traceCount]
  | cons x rest ih =>
      intro st h
      obtain ⟨p, s⟩ := x
      have h1 : traceCount f
          (onMessage fns st (NAMESPACE ++ "/" ++ E) p s).trace = 0 := by
        rw [onMessage_ns_trace, traceCount_flatMap, h]
      have hle := onMessage_ns_wsum_le (fWeight f) fns st E p s
      rw [h] at hle
      have h2 := ih ((onMessage fns st (NAMESPACE ++ "/" ++ E) p s).st)
        (Nat.le_zero.mp hle)
      simp only [onMessageSeq, traceCount, List.countP_append]
      simp only [traceCount] at h1 h2
      omega

theorem onMessageSeq_resolvedCount_zero (fns : Fns) (E : String) (pid : Nat)
    (ps : List (JSVal × JSVal)) :
    ∀ st : Bus, wsum (pWeight pid) (listenersFor st.reg E) = 0 →
      (onMessageSeq fns st (NAMESPACE ++ "/" ++ E) ps).2.2.countP
        (fun e => e.1 == pid) = 0 := by
  induction ps with
  | nil =>
      intro st h
      simp [onMessageSeq]
  | cons x rest ih =>
      intro st h
      obtain ⟨p, s⟩ := x
      have h1 : (onMessage fns st (NAMESPACE ++ "/" ++ E) p s).resolved.countP
          (fun e => e.1 == pid) = 0 := by
        rw [onMessage_ns_resolved, resolvedCount_flatMap, h]
      have hle := onMessage_ns_wsum_le (pWeight pid) fns st E p s
      rw [h] at hle
      have h2 := ih ((onMessage fns st (NAMESPACE ++ "/" ++ E) p s).st)
        (Nat.le_zero.mp hle)
      simp only [onMessageSeq, List.countP_append]
      omega

theorem wsum_after_first_dispatch (g : Listener → Nat) (E : String)
    (old : List Listener) (w : Listener)
    (hold : ∀ x ∈ old, g x = 0) (hw : w ∉ old)
    (hrem : removesFrom E w = true) :
    wsum g (eraseAll (old ++ [w]) ((old ++ [w]).filter (removesFrom E))) = 0 := by
  have hwnot : w ∉ eraseAll (old ++ [w]) ((old ++ [w]).filter (removesFrom E)) := by
    intro hx
    have hmemf : w ∈ (old ++ [w]).filter (removesFrom E) :=
      List.mem_filter.mpr
        ⟨List.mem_append_right _ (List.mem_singleton.mpr rfl), hrem⟩
    have hcnt := count_eraseAll_of_mem (old ++ [w]) _ w hmemf
    have hc1 : (old ++ [w]).count w = 1 := by
      rw [List.count_append, List.count_eq_zero.mpr hw]
      simp
    have hpos : 0 <
        (eraseAll (old ++ [w]) ((old ++ [w]).filter (removesFrom E))).count w :=
      List.count_pos_iff.mpr hx
    omega
  rw [wsum_eq_zero_iff]
  intro x hx
  have hsub : x ∈ old ++ [w] :=
    (eraseAll_sublist (old ++ [w]) ((old ++ [w]).filter (removesFrom E))).subset hx
  rcases List.mem_append.mp hsub with hmem | hmem
  · exact hold x hmem
  · rw [List.mem_singleton] at hmem
    subst hmem
    exact absurd hx hwnot

theorem resolved_filter_empty (pid : Nat) (p : JSVal) (l : List Listener)
    (h : ∀ x ∈ l, pWeight pid x = 0) :
    (l.flatMap (listenerResolved p)).filter (fun e => e.1 == pid) = [] := by
  induction l with
  | nil => simp
  | cons x rest ih =>
      simp only [List.flatMap_cons, List.filter_append]
      rw [ih (fun y hy => h y (List.mem_cons_of_mem _ hy))]
      have hx := h x (List.mem_cons_self _ _)
      cases x with
      | user g => simp [listenerResolved]
      | onceWrap ev uid g => simp [listenerResolved]
      | onceResolve ev q =>
          by_cases hq : q = pid
          · subst hq
            simp [pWeight] at hx
          · simp [listenerResolved, hq]

/-! ### Claim C5 -/

/-- C5: after once(E, L) with a function listener L not otherwise registered
for E, L is invoked exactly once across any number of subsequent inbound
dispatches of E (on the first dispatch only); and once(E) without a function
listener returns a future which is resolved with the payload of the first
subsequent dispatch of E, exactly once across the whole sequence, the
internal registration being detached after that first dispatch. -/
theorem claim5_once_at_most_once (fns : Fns) (st : Bus) (E : String) (f : Nat)
    (p1 s1 : JSVal) (rest : List (JSVal × JSVal))
    (hE : E ≠ "")
    (hf : wsum (fWeight f) (listenersFor st.reg E) = 0)
    (hp : wsum (pWeight st.nextId) (listenersFor st.reg E) = 0) :
    (traceCount f
        (onMessage fns (once st E (.fn f)).1 (NAMESPACE ++ "/" ++ E)
          p1 s1).trace = 1 ∧
     traceCount f
        (onMessageSeq fns (once st E (.fn f)).1 (NAMESPACE ++ "/" ++ E)
          ((p1, s1) :: rest)).2.1 = 1) ∧
    ((once st E .missing).2 = some st.nextId ∧
     (onMessage fns (once st E .missing).1 (NAMESPACE ++ "/" ++ E)
        p1 s1).resolved.filter (fun e => e.1 == st.nextId) = [(st.nextId, p1)] ∧
     (onMessageSeq fns (once st E .missing).1 (NAMESPACE ++ "/" ++ E)
        ((p1, s1) :: rest)).2.2.countP (fun e => e.1 == st.nextId) = 1) := by
  have hold_f : ∀ x ∈ listenersFor st.reg E, fWeight f x = 0 :=
    (wsum_eq_zero_iff _ _).mp hf
  have hold_p : ∀ x ∈ listenersFor st.reg E, pWeight st.nextId x = 0 :=
    (wsum_eq_zero_iff _ _).mp hp
  have hrem_w : removesFrom E (.onceWrap E st.nextId f) = true := by
    simp [removesFrom, hE]
  have hrem_r : removesFrom E (.onceResolve E st.nextId) = true := by
    simp [removesFrom, hE]
  have hw : Listener.onceWrap E st.nextId f ∉ listenersFor st.reg E := by
    intro hmem
    have := hold_f _ hmem
    simp [fWeight] at this
  have hwr : Listener.onceResolve E st.nextId ∉ listenersFor st.reg E := by
    intro hmem
    have := hold_p _ hmem
    simp [pWeight] at this
  have hLA : listenersFor (once st E (.fn f)).1.reg E =
      listenersFor st.reg E ++ [.onceWrap E st.nextId f] := by
    have hw2 := hw
    rw [once_fn_eq st E f hE]
    simp only [listenersFor] at hw2 ⊢
    simp [alookup_aset_self, sadd, hw2]
  have hLB : listenersFor (once st E .missing).1.reg E =
      listenersFor st.reg E ++ [.onceResolve E st.nextId] := by
    have hw2 := hwr
    rw [once_promise_eq st E .missing hE rfl]
    simp only [listenersFor] at hw2 ⊢
    simp [alookup_aset_self, sadd, hw2]
  have hA1 : traceCount f
      (onMessage fns (once st E (.fn f)).1 (NAMESPACE ++ "/" ++ E)
        p1 s1).trace = 1 := by
    rw [onMessage_ns_trace, hLA, traceCount_flatMap, wsum_append, hf]
    simp [wsum, fWeight]
  have hZA : wsum (fWeight f)
      (listenersFor ((onMessage fns (once st E (.fn f)).1
        (NAMESPACE ++ "/" ++ E) p1 s1).st).reg E) = 0 := by
    rw [onMessage_ns_listeners, hLA]
    exact wsum_after_first_dispatch _ _ _ _ hold_f hw hrem_w
  have hZB : wsum (pWeight st.nextId)
      (listenersFor ((onMessage fns (once st E .missing).1
        (NAMESPACE ++ "/" ++ E) p1 s1).st).reg E) = 0 := by
    rw [onMessage_ns_listeners, hLB]
    exact wsum_after_first_dispatch _ _ _ _ hold_p hwr hrem_r
  refine ⟨⟨hA1, ?_⟩, ?_, ?_, ?_⟩
  · simp only [onMessageSeq, traceCount, List.countP_append]
    have h2 := onMessageSeq_traceCount_zero fns E f rest _ hZA
    simp only [traceCount] at hA1 h2
    omega
  · rw [once_promise_eq st E .missing hE rfl]
  · rw [onMessage_ns_resolved, hLB, List.flatMap_append, List.filter_append]
    rw [resolved_filter_empty _ _ _ hold_p]
    simp [listenerResolved]
  · have hB1 : (onMessage fns (once st E .missing).1 (NAMESPACE ++ "/" ++ E)
        p1 s1).resolved.countP (fun e => e.1 == st.nextId) = 1 := by
      rw [onMessage_ns_resolved, hLB, resolvedCount_flatMap, wsum_append, hp]
      simp [wsum, pWeight]
    simp only [onMessageSeq, List.countP_append]
    have h2 := onMessageSeq_resolvedCount_zero fns E st.nextId rest _ hZB
    omega

/-- Witness for C5: once on the empty bus, then the event dispatched three
times: the listener is invoked exactly once over the whole sequence. -/
theorem claim5_once_at_most_once_witness :
    ("foo" : String) ≠ "" ∧
    wsum (fWeight 0) (listenersFor bus0.reg "foo") = 0 ∧
    wsum (pWeight bus0.nextId) (listenersFor bus0.reg "foo") = 0 ∧
    traceCount 0 (onMessageSeq (fun _ p _ => p) (once bus0 "foo" (.fn 0)).1
      (NAMESPACE ++ "/" ++ "foo")
      [(.str "a", .undefined), (.str "b", .undefined), (.str "c", .undefined)]).2.1 = 1 :=
  ⟨by decide, by decide, by decide,
   ((claim5_once_at_most_once (fun _ p _ => p) bus0 "foo" 0 (.str "a") .undefined
      [(.str "b", .undefined), (.str "c", .undefined)]
      (by decide) (by decide) (by decide)).1).2⟩

theorem listenersFor_aset_self (r : Reg) (E : String) (s : List Listener) :
    listenersFor (aset r E s) E = s := by
  simp [listenersFor, alookup_aset_self]

/-! ### Claim C9 -/

/-- C9: registering a function listener with on and then removing it with
off leaves the registry with no registration of that listener for the
event (assuming, as the claim does, that it was not otherwise registered),
so a subsequent inbound dispatch of the event does not invoke it; and off on
a listener that is not registered is a no-op that throws nothing and changes
nothing. -/
theorem claim9_off_undoes_on (fns : Fns) (st : Bus) (E : String) (f : Nat)
    (p s : JSVal)
    (hf : wsum (fWeight f) (listenersFor st.reg E) = 0) :
    traceCount f
      (onMessage fns (off («on» st E (.fn f)) E (.fn f))
        (NAMESPACE ++ "/" ++ E) p s).trace = 0 ∧
    (Listener.user f ∉ listenersFor st.reg E → off st E (.fn f) = st) := by
  have hold : ∀ x ∈ listenersFor st.reg E, fWeight f x = 0 :=
    (wsum_eq_zero_iff _ _).mp hf
  have hmem : Listener.user f ∉ listenersFor st.reg E := by
    intro hmem
    have := hold _ hmem
    simp [fWeight] at this
  constructor
  · by_cases hE : E = ""
    · subst hE
      have hon : «on» st "" (.fn f) = st := by simp [«on»]
      have hoff : off st "" (.fn f) = st := by simp [off]
      rw [hon, hoff, onMessage_ns_trace, traceCount_flatMap, hf]
    · have hon : «on» st E (.fn f) =
          Bus.mk (aset st.reg E (listenersFor st.reg E ++ [Listener.user f]))
            st.nextId := by
        simp [«on», hE, argFalsy, isFn, addListener, sadd, hmem]
      have hlook : alookup («on» st E (.fn f)).reg E =
          some (listenersFor st.reg E ++ [.user f]) := by
        rw [hon]
        exact alookup_aset_self _ _ _
      have hoffeq : off («on» st E (.fn f)) E (.fn f) =
          removeListener («on» st E (.fn f)) E (.user f) := by
        simp [off, hE, argFalsy, isFn]
      have hoff : listenersFor (off («on» st E (.fn f)) E (.fn f)).reg E =
          listenersFor st.reg E := by
        rw [hoffeq]
        simp only [removeListener, hon, alookup_aset_self, listenersFor_aset_self]
        rw [List.erase_append_right _ hmem, List.erase_cons_head,
          List.append_nil]
      rw [onMessage_ns_trace, traceCount_flatMap, hoff, hf]
  · intro hnot
    by_cases hE : E = ""
    · subst hE
      simp [off]
    · have hoffeq2 : off st E (.fn f) = removeListener st E (.user f) := by
        simp [off, hE, argFalsy, isFn]
      rw [hoffeq2]
      cases hl : alookup st.reg E with
      | none => simp [removeListener, hl]
      | some s0 =>
          have hs0 : listenersFor st.reg E = s0 := by
            simp [listenersFor, hl]
          rw [hs0] at hnot
          simp only [removeListener, hl]
          rw [List.erase_of_not_mem hnot, aset_self_of_lookup _ _ _ hl]

/-- Witness for C9: on then off on the empty bus: the subsequent dispatch
invokes nothing, and off of an unregistered listener changes nothing. -/
theorem claim9_off_undoes_on_witness :
    wsum (fWeight 0) (listenersFor bus0.reg "foo") = 0 ∧
    (traceCount 0
      (onMessage (fun _ p _ => p) (off («on» bus0 "foo" (.fn 0)) "foo" (.fn 0))
        (NAMESPACE ++ "/" ++ "foo") (.str "bar") .undefined).trace = 0 ∧
     (Listener.user 0 ∉ listenersFor bus0.reg "foo" →
        off bus0 "foo" (.fn 0) = bus0)) :=
  ⟨by decide,
   claim9_off_undoes_on (fun _ p _ => p) bus0 "foo" 0 (.str "bar") .undefined
     (by decide)⟩

/-! ### Claim C8 -/

/-- C8 (amended): on and off are silent no-ops, leaving the registry
unchanged, whenever the event name is empty or the listener argument is not
a function, and once is a silent no-op when the event name is empty; but
once with a non-empty event name and a non-function (or absent) listener
argument is not a registry no-op: it takes the promise branch, registering
a self-removing resolving wrapper and returning a future. -/
theorem claim8_invalid_calls (st : Bus) (E : String) (a : JSArg)
    (hinv : E = "" ∨ isFn a = false) :
    «on» st E a = st ∧
    off st E a = st ∧
    once st "" a = (st, none) ∧
    (E ≠ "" → isFn a = false →
      once st E a =
        (⟨aset st.reg E
            (sadd (listenersFor st.reg E) (.onceResolve E st.nextId)),
          st.nextId + 1⟩, some st.nextId)) := by
  refine ⟨?_, ?_, by simp [once], fun hE ha => once_promise_eq st E a hE ha⟩
  · rcases hinv with h | h
    · simp [«on», h]
    · cases a with
      | missing => simp [«on», isFn]
      | nonFn v => simp [«on», isFn]
      | fn g => simp [isFn] at h
  · rcases hinv with h | h
    · simp [off, h]
    · cases a with
      | missing => simp [off, isFn]
      | nonFn v => simp [off, isFn]
      | fn g => simp [isFn] at h

/-- C8 counterexample: once called with a non-empty event name and a
non-function listener argument is not a no-op: the registry of the empty
bus changes (a promise-mode resolving wrapper is registered), refuting the
registry-left-unchanged part of the claim as stated. -/
theorem claim8_once_nonfunction_not_noop :
    isFn (JSArg.nonFn (.num 5)) = false ∧
    (once bus0 "foo" (.nonFn (.num 5))).1 ≠ bus0 := by
  refine ⟨by decide, by decide⟩

/-- Witness for C8: a non-function listener argument: on and off are no-ops
on the empty bus, once with an empty name is a no-op, and once with a
non-empty name registers the resolving wrapper. -/
theorem claim8_invalid_calls_witness :
    (("foo" : String) = "" ∨ isFn (JSArg.nonFn (.num 5)) = false) ∧
    («on» bus0 "foo" (.nonFn (.num 5)) = bus0 ∧
     off bus0 "foo" (.nonFn (.num 5)) = bus0 ∧
     once bus0 "" (.nonFn (.num 5)) = (bus0, none) ∧
     (("foo" : String) ≠ "" → isFn (JSArg.nonFn (.num 5)) = false →
       once bus0 "foo" (.nonFn (.num 5)) =
         (⟨aset bus0.reg "foo"
             (sadd (listenersFor bus0.reg "foo")
               (.onceResolve "foo" bus0.nextId)),
           bus0.nextId + 1⟩, some bus0.nextId))) :=
  ⟨Or.inr (by decide),
   claim8_invalid_calls bus0 "foo" (.nonFn (.num 5)) (Or.inr (by decide))⟩

/-! ### Claim C7 -/

/-- C7 (amended): emit with a non-empty event name sends the namespaced
envelope through the host one-shot primitive, targeted at the tab exactly
when a truthy (nonzero) numeric tab id is supplied and broadcast otherwise
(including the falsy numeric tab id 0), and the returned future rejects
with the host-supplied error exactly when the host reports a delivery
failure, resolving with the host response otherwise; the embedding of emit
is a total function of its inputs, so nothing is thrown synchronously. -/
theorem claim7_emit_envelope (lastError : Option JSVal) (response : JSVal)
    (e : String) (p : JSVal) (extra : JSVal) (t : Int) (he : e ≠ "") :
    emit lastError response (.str e) p extra =
      EmitResult.sent none ⟨NAMESPACE ++ "/" ++ e, p⟩
        (match lastError with
         | some err => Except.error err
         | none => Except.ok response) ∧
    emit lastError response (.num t) (.str e) p =
      EmitResult.sent (if t = 0 then none else some t)
        ⟨NAMESPACE ++ "/" ++ e, p⟩
        (match lastError with
         | some err => Except.error err
         | none => Except.ok response) := by
  constructor
  · simp [emit, truthy, he, emitTarget, jsToString]
  · by_cases ht : t = 0 <;>
      simp [emit, truthy, he, ht, emitTarget, jsToString]

/-- C7 counterexample: a numeric tab id equal to 0 is supplied together
with a non-empty event name, yet the envelope is broadcast (target none)
instead of being sent to tab 0: the if (tab) test treats the number 0 as
falsy, refuting the targeted-when-a-numeric-tab-id-is-supplied part of the
claim as stated. -/
theorem claim7_tab_zero_broadcasts :
    emit none (.str "ok") (.num 0) (.str "foo") (.str "bar") =
      EmitResult.sent none ⟨NAMESPACE ++ "/" ++ "foo", .str "bar"⟩
        (Except.ok (.str "ok")) := by
  rfl

/-- Witness for C7: a delivery failure reported by the host rejects the
future with the host error, for both the broadcast and the targeted call
shape. -/
theorem claim7_emit_envelope_witness :
    ("foo" : String) ≠ "" ∧
    (emit (some (.str "no receiving end")) .undefined (.str "foo")
        (.str "bar") .undefined =
       EmitResult.sent none ⟨NAMESPACE ++ "/" ++ "foo", .str "bar"⟩
         (match some (JSVal.str "no receiving end") with
          | some err => Except.error err
          | none => Except.ok JSVal.undefined) ∧
     emit (some (.str "no receiving end")) .undefined (.num 5) (.str "foo")
        (.str "bar") =
       EmitResult.sent (if (5 : Int) = 0 then none else some 5)
         ⟨NAMESPACE ++ "/" ++ "foo", .str "bar"⟩
         (match some (JSVal.str "no receiving end") with
          | some err => Except.error err
          | none => Except.ok JSVal.undefined)) :=
  ⟨by decide,
   claim7_emit_envelope (some (.str "no receiving end")) .undefined "foo"
     (.str "bar") .undefined 5 (by decide)⟩

end Event

namespace ChannelApi

/-! ### Claim C4 -/

/-- C4: for every Channel and every payload, emitting the reserved
disconnect event never posts a message to the underlying port: the send
primitive of the port is not invoked and the call is a no-op. -/
theorem claim4_disconnect_reserved (c : Channel) (payload : JSVal) :
    c.emit "disconnect" payload = [] := by
  simp [Channel.emit, emitPosts]

/-! ### Claim C6 -/

/-- C6: an inbound port connection whose name starts with the channel
namespace is accepted: a Channel is created for it and every handler queued
under that exact name is invoked with the new Channel; the queue is left
unchanged, so an immediately following inbound connection under the same
name re-invokes exactly the same handlers. -/
theorem claim6_onconnect_requeues (hs : Handlers) (portName : String)
    (h : strStartsWith portName NAMESPACE = true) :
    onConnect hs portName =
      (hs, some (⟨portName, []⟩, (alookup hs portName).getD [])) ∧
    (onConnect (onConnect hs portName).1 portName).2 =
      (onConnect hs portName).2 := by
  constructor
  · simp [onConnect, h, create]
  · simp [onConnect, h]

/-- Witness for C6: two handlers queued under a channel name; the inbound
connection invokes both, and a repeated connection invokes the same two
again. -/
theorem claim6_onconnect_requeues_witness :
    strStartsWith "@krome/channel/tunnel/t1/devtools" NAMESPACE = true ∧
    (onConnect [("@krome/channel/tunnel/t1/devtools", [0, 1])]
        "@krome/channel/tunnel/t1/devtools" =
      ([("@krome/channel/tunnel/t1/devtools", [0, 1])],
       some (⟨"@krome/channel/tunnel/t1/devtools", []⟩,
         (alookup [("@krome/channel/tunnel/t1/devtools", [0, 1])]
           "@krome/channel/tunnel/t1/devtools").getD [])) ∧
     (onConnect (onConnect [("@krome/channel/tunnel/t1/devtools", [0, 1])]
         "@krome/channel/tunnel/t1/devtools").1
         "@krome/channel/tunnel/t1/devtools").2 =
       (onConnect [("@krome/channel/tunnel/t1/devtools", [0, 1])]
         "@krome/channel/tunnel/t1/devtools").2) :=
  ⟨by decide,
   claim6_onconnect_requeues [("@krome/channel/tunnel/t1/devtools", [0, 1])]
     "@krome/channel/tunnel/t1/devtools" (by decide)⟩

end ChannelApi

namespace TunnelApi

/-! ### Claim C2 -/

/-- C2 (amended): in a tunnel with two connected peers, once the target
(contents) peer is recorded under identity T and the initiator (devtools)
connection's completed handshake captured the same identity T, an event
envelope carrying an inner {event: E, payload: P} with a non-empty,
non-reserved E received by the broker from the initiator connection is
relayed through Channel emit to the target's recorded channel as the
message {event: E, payload: P}, and delivering that message on the target's
Channel invokes its listener for E with payload P; when no peer is recorded
under T in the opposite role's table, the envelope is silently dropped: no
message is posted and no error is raised to the emitting side (the
transition is total and returns the state unchanged). -/
theorem claim2_tunnel_relay (b : Broker) (k rchan : Nat) (conn : BrokerConn)
    (T P : JSVal) (E : String) (fns : Fns) (senderTab s2 : JSVal)
    (creg : Reg) (f : Nat)
    (hconn : findConn b.conns k = some conn)
    (hrole : conn.role = Role.devtools)
    (htab : conn.tab = T)
    (hdone : conn.initPending = false)
    (hE1 : E ≠ "") (hE2 : E ≠ "disconnect") :
    (alookup b.contents T = some rchan →
       recvMsg b k "event" (.envl E P) senderTab = (b, [(rchan, ⟨E, P⟩)]) ∧
       (Listener.user f ∈ listenersFor creg E →
          (f, P) ∈ (ChannelApi.chanInvoke fns creg E P s2).2)) ∧
    (alookup b.contents T = none →
       recvMsg b k "event" (.envl E P) senderTab = (b, [])) := by
  have hopp : opposite conn.role = Role.contents := by rw [hrole]; rfl
  have hinv : Listener.user f ∈ listenersFor creg E →
      (f, P) ∈ (ChannelApi.chanInvoke fns creg E P s2).2 := by
    intro hmem
    cases hsnap : alookup creg E with
    | none =>
        simp only [listenersFor, hsnap, Option.getD_none] at hmem
        simp at hmem
    | some snap =>
        have hms : Listener.user f ∈ snap := by
          simpa only [listenersFor, hsnap, Option.getD_some] using hmem
        simp only [ChannelApi.chanInvoke, hE1, if_neg hE1, hsnap,
          Event.dispatchList_eq]
        exact List.mem_flatMap.mpr ⟨Listener.user f, hms, by
          simp [Event.listenerTrace]⟩
  constructor
  · intro hT
    refine ⟨?_, hinv⟩
    simp [recvMsg, hconn, hopp, htab, tableOf, hT, ChannelApi.emitPosts,
      hE1, hE2, evOf, plOf]
  · intro hT
    simp [recvMsg, hconn, hopp, htab, tableOf, hT]

/-- C2 counterexample: with a target peer recorded under the very same
identity, an event envelope whose inner event name is the reserved
disconnect is not relayed: the broker posts nothing (the counterpart's
Channel emit guard drops the reserved name), so the target's listener for
that name is never invoked, refuting the claim as stated for an arbitrary
event name E. -/
theorem claim2_reserved_inner_event_dropped :
    recvMsg ⟨[], [(JSVal.num 7, 2)], [⟨Role.devtools, 1, JSVal.num 7, false⟩]⟩
        1 "event" (.envl "disconnect" (.str "x")) .undefined =
      (⟨[], [(JSVal.num 7, 2)], [⟨Role.devtools, 1, JSVal.num 7, false⟩]⟩,
       []) := by
  decide

/-- Witness for C2: the spec scenario: the initiator recorded under
identity 7 sends ping with payload 42; the target recorded under identity 7
at channel 2 is sent {event: ping, payload: 42}, and a channel registry
with a listener for ping has that listener invoked with 42. -/
theorem claim2_tunnel_relay_witness :
    findConn (Broker.mk [] [(JSVal.num 7, 2)]
        [⟨Role.devtools, 1, JSVal.num 7, false⟩]).conns 1 =
      some ⟨Role.devtools, 1, JSVal.num 7, false⟩ ∧
    ("ping" : String) ≠ "" ∧
    ("ping" : String) ≠ "disconnect" ∧
    ((alookup (Broker.mk [] [(JSVal.num 7, 2)]
         [⟨Role.devtools, 1, JSVal.num 7, false⟩]).contents (JSVal.num 7) =
       some 2 →
       recvMsg (Broker.mk [] [(JSVal.num 7, 2)]
           [⟨Role.devtools, 1, JSVal.num 7, false⟩])
           1 "event" (.envl "ping" (.num 42)) .undefined =
         (Broker.mk [] [(JSVal.num 7, 2)]
           [⟨Role.devtools, 1, JSVal.num 7, false⟩],
          [(2, ⟨"ping", .num 42⟩)]) ∧
       (Listener.user 0 ∈ listenersFor [("ping", [Listener.user 0])] "ping" →
          (0, JSVal.num 42) ∈ (ChannelApi.chanInvoke (fun _ _ _ => .undefined)
            [("ping", [Listener.user 0])] "ping" (.num 42) .undefined).2)) ∧
     (alookup (Broker.mk [] [(JSVal.num 7, 2)]
         [⟨Role.devtools, 1, JSVal.num 7, false⟩]).contents (JSVal.num 7) =
       none →
       recvMsg (Broker.mk [] [(JSVal.num 7, 2)]
           [⟨Role.devtools, 1, JSVal.num 7, false⟩])
           1 "event" (.envl "ping" (.num 42)) .undefined =
         (Broker.mk [] [(JSVal.num 7, 2)]
           [⟨Role.devtools, 1, JSVal.num 7, false⟩], []))) :=
  ⟨by decide, by decide, by decide,
   claim2_tunnel_relay (Broker.mk [] [(JSVal.num 7, 2)]
       [⟨Role.devtools, 1, JSVal.num 7, false⟩])
     1 2 ⟨Role.devtools, 1, JSVal.num 7, false⟩ (JSVal.num 7) (.num 42)
     "ping" (fun _ _ _ => .undefined) .undefined .undefined
     [("ping", [Listener.user 0])] 0
     (by decide) rfl rfl rfl (by decide) (by decide)⟩

/-! ### Claim C3 support -/

theorem tableOf_conns (b : Broker) (cs : List BrokerConn) (r : Role) :
    tableOf { b with conns := cs } r = tableOf b r := by
  cases r <;> rfl

theorem setTable_tableOf (b : Broker) (role r : Role)
    (t : List (JSVal × Nat)) :
    tableOf (setTable b role t) r = if role = r then t else tableOf b r := by
  cases role <;> cases r <;> simp [setTable, tableOf]

theorem opposite_ne (r : Role) : opposite r ≠ r := by
  cases r <;> decide

theorem recvMsg_init_tables (b : Broker) (k : Nat) (conn : BrokerConn)
    (payload senderTab : JSVal)
    (hconn : findConn b.conns k = some conn)
    (hpend : conn.initPending = true) (r : Role) :
    tableOf (recvMsg b k "init" payload senderTab).1 r =
      (if conn.role = r
       then aset (tableOf b conn.role) (idOf conn.role payload senderTab) k
       else tableOf b r) := by
  simp [recvMsg, hconn, hpend, tableOf_conns, setTable_tableOf]

theorem recvMsg_init_ignored (b : Broker) (k : Nat) (conn : BrokerConn)
    (payload senderTab : JSVal)
    (hconn : findConn b.conns k = some conn)
    (hpend : conn.initPending = false) :
    recvMsg b k "init" payload senderTab = (b, []) := by
  simp [recvMsg, hconn, hpend]

theorem recvMsg_event_state (b : Broker) (k : Nat) (payload senderTab : JSVal) :
    (recvMsg b k "event" payload senderTab).1 = b := by
  cases hconn : findConn b.conns k with
  | none => simp [recvMsg, hconn]
  | some conn => simp [recvMsg, hconn]

theorem recvMsg_disc_tables (b : Broker) (k : Nat) (conn : BrokerConn)
    (payload senderTab : JSVal)
    (hconn : findConn b.conns k = some conn) (r : Role) :
    tableOf (recvMsg b k "disconnect" payload senderTab).1 r =
      (if conn.role = r
       then adel (tableOf b conn.role) conn.tab
       else tableOf b r) := by
  simp [recvMsg, hconn, setTable_tableOf]

theorem recvMsg_other (b : Broker) (k : Nat) (event : String)
    (payload senderTab : JSVal) (h1 : event ≠ "init") (h2 : event ≠ "event")
    (h3 : event ≠ "disconnect") :
    recvMsg b k event payload senderTab = (b, []) := by
  cases hconn : findConn b.conns k with
  | none => simp [recvMsg, hconn]
  | some conn => simp [recvMsg, hconn, h1, h2, h3]

theorem peerDisconnect_tables (b : Broker) (k : Nat) (conn : BrokerConn)
    (hconn : findConn b.conns k = some conn) (r : Role) :
    tableOf (peerDisconnect b k) r =
      (if conn.role = r
       then adel (tableOf b conn.role) conn.tab
       else tableOf b r) := by
  simp [peerDisconnect, hconn, tableOf_conns, setTable_tableOf]

theorem brokerStep_keys_mem (b : Broker) (e : BEvent) (r : Role) (i : JSVal)
    (hinit : isInitMsg e = false)
    (h : i ∈ (tableOf (brokerStep b e) r).map Prod.fst) :
    i ∈ (tableOf b r).map Prod.fst := by
  cases e with
  | connect role chan =>
      rw [brokerStep, connectPeer, tableOf_conns] at h
      exact h
  | msg chan event payload senderTabId =>
      have hne : event ≠ "init" := by
        intro hev
        rw [isInitMsg, hev] at hinit
        simp at hinit
      rw [brokerStep] at h
      cases hconn : findConn b.conns chan with
      | none =>
          rw [recvMsg, hconn] at h
          exact h
      | some conn =>
          by_cases h2 : event = "event"
          · subst h2
            rw [recvMsg_event_state] at h
            exact h
          · by_cases h3 : event = "disconnect"
            · subst h3
              rw [recvMsg_disc_tables b chan conn _ _ hconn r] at h
              by_cases hr : conn.role = r
              · rw [if_pos hr] at h
                rw [← hr]
                exact mem_keys_adel _ _ _ h
              · rw [if_neg hr] at h
                exact h
            · rw [recvMsg_other b chan event _ _ hne h2 h3] at h
              exact h
  | disc chan =>
      rw [brokerStep] at h
      cases hconn : findConn b.conns chan with
      | none =>
          rw [peerDisconnect, hconn] at h
          exact h
      | some conn =>
          rw [peerDisconnect_tables b chan conn hconn r] at h
          by_cases hr : conn.role = r
          · rw [if_pos hr] at h
            rw [← hr]
            exact mem_keys_adel _ _ _ h
          · rw [if_neg hr] at h
            exact h

theorem brokerStep_keys_nodup (b : Broker) (e : BEvent)
    (h : ∀ r : Role, ((tableOf b r).map Prod.fst).Nodup) (r : Role) :
    ((tableOf (brokerStep b e) r).map Prod.fst).Nodup := by
  cases e with
  | connect role chan =>
      rw [brokerStep, connectPeer, tableOf_conns]
      exact h r
  | msg chan event payload senderTabId =>
      rw [brokerStep]
      cases hconn : findConn b.conns chan with
      | none =>
          rw [recvMsg, hconn]
          exact h r
      | some conn =>
          by_cases h1 : event = "init"
          · subst h1
            cases hpend : conn.initPending with
            | false =>
                rw [recvMsg_init_ignored b chan conn _ _ hconn hpend]
                exact h r
            | true =>
                rw [recvMsg_init_tables b chan conn _ _ hconn hpend r]
                by_cases hr : conn.role = r
                · rw [if_pos hr]
                  exact aset_keys_nodup _ _ _ (hr ▸ h conn.role)
                · rw [if_neg hr]
                  exact h r
          · by_cases h2 : event = "event"
            · subst h2
              rw [recvMsg_event_state]
              exact h r
            · by_cases h3 : event = "disconnect"
              · subst h3
                rw [recvMsg_disc_tables b chan conn _ _ hconn r]
                by_cases hr : conn.role = r
                · rw [if_pos hr]
                  exact adel_keys_nodup _ _ (hr ▸ h conn.role)
                · rw [if_neg hr]
                  exact h r
              · rw [recvMsg_other b chan event _ _ h1 h2 h3]
                exact h r
  | disc chan =>
      rw [brokerStep]
      cases hconn : findConn b.conns chan with
      | none =>
          rw [peerDisconnect, hconn]
          exact h r
      | some conn =>
          rw [peerDisconnect_tables b chan conn hconn r]
          by_cases hr : conn.role = r
          · rw [if_pos hr]
            exact adel_keys_nodup _ _ (hr ▸ h conn.role)
          · rw [if_neg hr]
            exact h r

theorem brokerRun_keys_nodup (tr : List BEvent) :
    ∀ b : Broker, (∀ r : Role, ((tableOf b r).map Prod.fst).Nodup) →
      ∀ r : Role, ((tableOf (brokerRun b tr) r).map Prod.fst).Nodup := by
  induction tr with
  | nil =>
      intro b h r
      exact h r
  | cons e rest ih =>
      intro b h r
      rw [brokerRun]
      exact ih (brokerStep b e) (fun r2 => brokerStep_keys_nodup b e h r2) r

/-! ### Claim C3 -/

/-- C3: the tunnel peer-table identity invariant.  A table entry is created
exactly by a first init handshake on a connection: the handshaking role's
table gains (or overwrites, last writer wins) the entry under the identity
prescribed for the role (the devtools role records the init payload, the
contents role records the connecting sender's tab id), the opposite table
is untouched, and other identities keep their entries; a later init on the
same connection is silently ignored (the once listener detached itself);
no other happening ever creates a table entry; a peer disconnect removes
the entry under that peer's captured identity from its own role's table
only, leaving other identities intact; and along every trace from the
initial broker state the key sets of both tables stay duplicate-free, so at
most one live Channel is recorded per identity per role at any time. -/
theorem claim3_peer_table_identity :
    (∀ (b : Broker) (k : Nat) (conn : BrokerConn) (payload senderTab : JSVal),
       findConn b.conns k = some conn → conn.initPending = true →
       (recvMsg b k "init" payload senderTab).2 = [] ∧
       tableOf (recvMsg b k "init" payload senderTab).1 conn.role =
         aset (tableOf b conn.role) (idOf conn.role payload senderTab) k ∧
       tableOf (recvMsg b k "init" payload senderTab).1 (opposite conn.role) =
         tableOf b (opposite conn.role) ∧
       alookup (tableOf (recvMsg b k "init" payload senderTab).1 conn.role)
         (idOf conn.role payload senderTab) = some k ∧
       (∀ i, i ≠ idOf conn.role payload senderTab →
          alookup (tableOf (recvMsg b k "init" payload senderTab).1 conn.role)
            i = alookup (tableOf b conn.role) i)) ∧
    (∀ (b : Broker) (k : Nat) (conn : BrokerConn) (payload senderTab : JSVal),
       findConn b.conns k = some conn → conn.initPending = false →
       recvMsg b k "init" payload senderTab = (b, [])) ∧
    (∀ (b : Broker) (e : BEvent), isInitMsg e = false →
       ∀ (r : Role) (i : JSVal),
         i ∈ (tableOf (brokerStep b e) r).map Prod.fst →
         i ∈ (tableOf b r).map Prod.fst) ∧
    (∀ (b : Broker) (k : Nat) (conn : BrokerConn),
       findConn b.conns k = some conn →
       ((tableOf b conn.role).map Prod.fst).Nodup →
       alookup (tableOf (peerDisconnect b k) conn.role) conn.tab = none ∧
       (∀ i, i ≠ conn.tab →
          alookup (tableOf (peerDisconnect b k) conn.role) i =
            alookup (tableOf b conn.role) i) ∧
       tableOf (peerDisconnect b k) (opposite conn.role) =
         tableOf b (opposite conn.role)) ∧
    (∀ (tr : List BEvent) (r : Role),
       ((tableOf (brokerRun broker0 tr) r).map Prod.fst).Nodup) := by
  refine ⟨?_, ?_, ?_, ?_, ?_⟩
  · intro b k conn payload senderTab hconn hpend
    have ht := recvMsg_init_tables b k conn payload senderTab hconn hpend
    have hown := ht conn.role
    rw [if_pos rfl] at hown
    have hopp := ht (opposite conn.role)
    rw [if_neg (fun he => opposite_ne conn.role he.symm)] at hopp
    refine ⟨?_, hown, hopp, ?_, ?_⟩
    · simp [recvMsg, hconn, hpend]
    · rw [hown]
      exact alookup_aset_self _ _ _
    · intro i hi
      rw [hown]
      exact alookup_aset_ne _ _ _ _ hi
  · intro b k conn payload senderTab hconn hpend
    exact recvMsg_init_ignored b k conn payload senderTab hconn hpend
  · intro b e hinit r i h
    exact brokerStep_keys_mem b e r i hinit h
  · intro b k conn hconn hnd
    have ht := peerDisconnect_tables b k conn hconn
    have hown := ht conn.role
    rw [if_pos rfl] at hown
    have hopp := ht (opposite conn.role)
    rw [if_neg (fun he => opposite_ne conn.role he.symm)] at hopp
    refine ⟨?_, ?_, hopp⟩
    · rw [hown]
      exact alookup_adel_self _ _ hnd
    · intro i hi
      rw [hown]
      exact alookup_adel_ne _ _ _ hi
  · intro tr r
    exact brokerRun_keys_nodup tr broker0 (by intro r2; cases r2 <;> simp [broker0, tableOf]) r

/-- Witness for C3: a concrete first handshake: a contents-role connection
sends init and is recorded under its sender tab id; the payload-free parts
of the invariant evaluated on a short concrete trace. -/
theorem claim3_peer_table_identity_witness :
    findConn (connectPeer broker0 Role.contents 4).conns 4 =
      some ⟨Role.contents, 4, .undefined, true⟩ ∧
    (⟨Role.contents, 4, .undefined, true⟩ : BrokerConn).initPending = true ∧
    tableOf (recvMsg (connectPeer broker0 Role.contents 4) 4 "init"
        .undefined (.num 9)).1 (⟨Role.contents, 4, .undefined, true⟩ : BrokerConn).role =
      aset (tableOf (connectPeer broker0 Role.contents 4)
          (⟨Role.contents, 4, .undefined, true⟩ : BrokerConn).role)
        (idOf (⟨Role.contents, 4, .undefined, true⟩ : BrokerConn).role .undefined
          (.num 9)) 4 ∧
    ((tableOf (brokerRun broker0
        [BEvent.connect Role.contents 4,
         BEvent.msg 4 "init" .undefined (.num 9)]) Role.contents).map
      Prod.fst).Nodup :=
  ⟨by decide, rfl,
   ((claim3_peer_table_identity.1 (connectPeer broker0 Role.contents 4) 4
      ⟨Role.contents, 4, .undefined, true⟩ .undefined (.num 9)
      (by decide) rfl).2).1,
   claim3_peer_table_identity.2.2.2.2
     [BEvent.connect Role.contents 4, BEvent.msg 4 "init" .undefined (.num 9)]
     Role.contents⟩

end TunnelApi

end Krome
